import Mathlib

/-!
Verification of the meetapp interaction logging/retrieval pipeline
(`app3.py`) against its specification.

Modelling conventions: Python strings are lists of Unicode code points
(`List Nat`); the Supabase `interactions` table is the list of its
`(name, details)` rows in insertion order; Python dicts over string keys
are association lists with in-place overwrite on duplicate keys; the
external Groq call and Python's `json.loads` are collaborators modelled
as explicit inputs.
-/

namespace MeetApp

/-- Python strings modelled as lists of code points. -/
abbrev PyStr := List Nat

/-- Code points of a Lean string literal, used for concrete inputs. -/
def str (s : String) : PyStr := s.data.map Char.toNat

/-- Whitespace test used by Python `str.strip` (ASCII whitespace:
tab, newline, vertical tab, form feed, carriage return, space). -/
def isSpace (c : Nat) : Bool :=
  decide (c = 9 ∨ c = 10 ∨ c = 11 ∨ c = 12 ∨ c = 13 ∨ c = 32)

/-- Python `str.lower` on one code point (ASCII letter range). -/
def lowerChar (c : Nat) : Nat := if 65 ≤ c ∧ c ≤ 90 then c + 32 else c

/-- Python `str.lower`. -/
def lower (s : PyStr) : PyStr := s.map lowerChar

/-- Removal of leading whitespace. -/
def lstrip (s : PyStr) : PyStr := s.dropWhile isSpace

/-- Removal of trailing whitespace. -/
def rstrip (s : PyStr) : PyStr := s.rdropWhile isSpace

/-- Python `str.strip`: remove leading and trailing whitespace. -/
def strip (s : PyStr) : PyStr := rstrip (lstrip s)

/-- `normalize_name` from app3.py: `name.strip().lower()`. -/
def normalize_name (name : PyStr) : PyStr := lower (strip name)

/-- Normalized names of the store's rows, embedding the comprehension
`{normalize_name(row["name"]) for row in existing.data}` of
`save_interaction`; membership in the Python set coincides with
membership in this list. -/
def normsOf (rows : List (PyStr × PyStr)) : List PyStr :=
  rows.map fun r => normalize_name r.1

/-- `save_interaction` from app3.py on a store state `rows`: returns the
Boolean result together with the store rows after the call.  The
normalized-duplicate check rejects without inserting; otherwise the row
`(name, details)` with the original display name is appended. -/
def save_interaction (rows : List (PyStr × PyStr)) (name details : PyStr) :
    Bool × List (PyStr × PyStr) :=
  if normalize_name name ∈ normsOf rows then (false, rows)
  else (true, rows ++ [(name, details)])

/-- Store state after a sequence of `save_interaction` calls. -/
def run_saves (rows : List (PyStr × PyStr)) (ops : List (PyStr × PyStr)) :
    List (PyStr × PyStr) :=
  ops.foldl (fun s op => (save_interaction s op.1 op.2).2) rows

/-- Python dict insertion over string keys: a duplicate key overwrites
the stored value in place, a new key is appended. -/
def dictInsert (d : List (PyStr × PyStr)) (k v : PyStr) :
    List (PyStr × PyStr) :=
  match d with
  | [] => [(k, v)]
  | (k2, v2) :: rest =>
    if k2 = k then (k2, v) :: rest else (k2, v2) :: dictInsert rest k v

/-- Python `dict.get k` (returning `none` when the key is absent). -/
def dictGet (d : List (PyStr × PyStr)) (k : PyStr) : Option PyStr :=
  match d with
  | [] => none
  | (k2, v) :: rest => if k2 = k then some v else dictGet rest k

/-- `load_interactions` from app3.py: the dict comprehension
`(normalize_name(row["name"]), row["details"]) for row in response.data`. -/
def load_interactions (rows : List (PyStr × PyStr)) : List (PyStr × PyStr) :=
  rows.foldl (fun d r => dictInsert d (normalize_name r.1) r.2) []

/-- Levenshtein edit distance with a structural fuel argument; the fuel
`a.length + b.length` of `lev` is enough for every recursive path, so
the third equation is never reached. -/
def levFuel : Nat → PyStr → PyStr → Nat
  | _, [], b => b.length
  | _, a, [] => a.length
  | 0, x :: a, y :: b => (x :: a).length + (y :: b).length
  | fuel + 1, x :: a, y :: b =>
    if x = y then levFuel fuel a b
    else 1 + min (levFuel fuel a b)
      (min (levFuel fuel (x :: a) b) (levFuel fuel a (y :: b)))

/-- Levenshtein edit distance between two strings. -/
def lev (a b : PyStr) : Nat := levFuel (a.length + b.length) a b

/-- Modelled from the spec: the string-similarity metric of
`fuzzywuzzy.process.extractOne` (an external library) is specified only
as a token/edit-distance based score on a 0-100 scale, so it is modelled
as the Levenshtein similarity `(lensum - distance) * 100 / lensum`; the
library scores a comparison involving an empty processed string as 0. -/
def ratio_score (a b : PyStr) : Nat :=
  if a = [] ∨ b = [] then 0
  else ((a.length + b.length - lev a b) * 100) / (a.length + b.length)

/-- One comparison step of `extractOne`: keep the better-scoring of the
current best and the next choice, the current best on ties. -/
def bestStep (q : PyStr) (best : PyStr × Nat) (c2 : PyStr) : PyStr × Nat :=
  if best.2 < ratio_score q c2 then (c2, ratio_score q c2) else best

/-- Modelled from the spec: `fuzzywuzzy.process.extractOne` returns a
best-scoring choice together with its score; on ties the first choice
encountered in iteration order is kept. -/
def extractOne (q : PyStr) (choices : List PyStr) : Option (PyStr × Nat) :=
  match choices with
  | [] => none
  | c :: rest => some (rest.foldl (bestStep q) (c, ratio_score q c))

/-- Fuzzy-matching else-branch of `load_interaction` from app3.py:
guarded by `if all_names:`, calls `process.extractOne` and accepts the
best match only when its score is at least 80. -/
def fuzzy_branch (interactions : List (PyStr × PyStr)) (normalized : PyStr) :
    Option PyStr :=
  if interactions.map Prod.fst = [] then none
  else
    match extractOne normalized (interactions.map Prod.fst) with
    | some (best, score) =>
      if 80 ≤ score then dictGet interactions best else none
    | none => none

/-- `load_interaction` from app3.py.  The locals `interactions` and
`normalized_name` are inlined; `if exact_match:` is a Python truthiness
test, so an exact hit whose details is the empty string falls through to
the fuzzy branch. -/
def load_interaction (rows : List (PyStr × PyStr)) (name : PyStr) :
    Option PyStr :=
  match dictGet (load_interactions rows) (normalize_name name) with
  | some d =>
    if d = [] then fuzzy_branch (load_interactions rows) (normalize_name name)
    else some d
  | none => fuzzy_branch (load_interactions rows) (normalize_name name)

/-- Outcome displayed by the retrieve tab of app3.py. -/
inductive RetrieveOutcome
  | found (name : PyStr) (details : PyStr)
  | notFound (name : PyStr)
  | info (msg : PyStr)
  | unresolved
deriving DecidableEq

/-- Retrieve-tab handler of app3.py after the Groq parse: dispatch on
`result.get("name")` and `result.get("message")`.  `if details:` is a
truthiness test, so empty details is displayed as not found. -/
def retrieve_tab (rows : List (PyStr × PyStr))
    (personName msg? : Option PyStr) : RetrieveOutcome :=
  match personName with
  | some n =>
    match load_interaction rows n with
    | some d => if d = [] then .notFound n else .found n d
    | none => .notFound n
  | none =>
    match msg? with
    | some m => .info m
    | none => .unresolved

/-- Result displayed by the log tab of app3.py. -/
inductive LogResult
  | validationError
  | success
  | failure
deriving DecidableEq

/-- Log-tab handler of app3.py: `if not person_name or not
interaction_details` rejects, otherwise `save_interaction` runs.  The
components are the displayed result, the store rows afterwards, and
whether the store was accessed. -/
def log_tab (rows : List (PyStr × PyStr)) (name details : PyStr) :
    LogResult × List (PyStr × PyStr) × Bool :=
  if name = [] ∨ details = [] then (.validationError, rows, false)
  else
    let res := save_interaction rows name details
    (if res.1 then .success else .failure, res.2, true)

/-- JSON values as far as `parse_query_with_groq` inspects them:
`null`, strings, objects, and anything else. -/
inductive Json
  | null
  | jstr (s : PyStr)
  | obj (fields : List (PyStr × Json))
  | other

/-- The dict with `name` and `message` both `None` that
`parse_query_with_groq` returns on every failure path. -/
def emptyResult : Json :=
  .obj [(str "name", .null), (str "message", .null)]

/-- Check `isinstance(parsed_result, dict) and "name" in parsed_result`
of app3.py. -/
def hasNameField : Json → Bool
  | .obj fields => fields.any fun p => decide (p.1 = str "name")
  | _ => false

/-- Behaviour of the external Groq chat-completion call: it either
raises an exception (any network/API failure, caught by the `except`
clauses) or yields the raw message content. -/
inductive LLMBehavior
  | raises
  | returns (content : PyStr)

/-- `parse_query_with_groq` from app3.py, over an explicit behaviour of
the external Groq call and an explicit model `jsonLoads` of Python's
`json.loads` (`none` standing for a raised `JSONDecodeError`).  Every
failure path returns the `emptyResult` dict. -/
def parse_query_with_groq (jsonLoads : PyStr → Option Json)
    (llm : LLMBehavior) : Json :=
  match llm with
  | .raises => emptyResult
  | .returns content =>
    if strip content = [] then emptyResult
    else
      match jsonLoads (strip content) with
      | none => emptyResult
      | some v => if hasNameField v then v else emptyResult

theorem isSpace_lowerChar (c : Nat) : isSpace (lowerChar c) = isSpace c := by
  unfold lowerChar isSpace
  split
  · rw [decide_eq_decide]; omega
  · rfl

theorem dropWhile_lower (l : PyStr) :
    (lower l).dropWhile isSpace = lower (l.dropWhile isSpace) := by
  induction l with
  | nil => rfl
  | cons x xs ih =>
    simp only [lower, List.map_cons, List.dropWhile_cons, isSpace_lowerChar]
    cases h : isSpace x
    · simp
    · simpa [lower] using ih

theorem lstrip_lower (l : PyStr) : lstrip (lower l) = lower (lstrip l) :=
  dropWhile_lower l

theorem lower_reverse (l : PyStr) : lower l.reverse = (lower l).reverse := by
  simp [lower]

theorem rstrip_lower (l : PyStr) : rstrip (lower l) = lower (rstrip l) := by
  simp only [rstrip, List.rdropWhile]
  rw [← lower_reverse, dropWhile_lower, lower_reverse]

theorem strip_lower (l : PyStr) : strip (lower l) = lower (strip l) := by
  simp only [strip, lstrip_lower, rstrip_lower]

theorem lowerChar_idem (c : Nat) : lowerChar (lowerChar c) = lowerChar c := by
  unfold lowerChar
  split
  · rw [if_neg (by omega)]
  · rfl

theorem lower_idem (l : PyStr) : lower (lower l) = lower l := by
  simp [lower, List.map_map, Function.comp_def, lowerChar_idem]

theorem lstrip_strip (l : PyStr) : lstrip (strip l) = strip l := by
  have hpre : List.rdropWhile isSpace (lstrip l) <+: lstrip l :=
    List.rdropWhile_prefix _ _
  rw [show strip l = List.rdropWhile isSpace (lstrip l) from rfl,
    lstrip, List.dropWhile_eq_self_iff]
  intro hl
  have hlen : 0 < (lstrip l).length := lt_of_lt_of_le hl hpre.length_le
  have hget : (List.rdropWhile isSpace (lstrip l)).get ⟨0, hl⟩
      = (lstrip l).get ⟨0, hlen⟩ := by
    simpa [List.get_eq_getElem] using hpre.getElem hl
  rw [hget]
  exact List.dropWhile_get_zero_not isSpace l hlen

theorem strip_idem (l : PyStr) : strip (strip l) = strip l := by
  conv_lhs => rw [strip, lstrip_strip, strip]
  rw [rstrip, rstrip, List.rdropWhile_idempotent]
  rfl

theorem normalize_name_via_lower_strip (s : PyStr) :
    normalize_name s = strip (lower s) := by
  rw [normalize_name, strip_lower]

/-- C5: `normalize` trims leading/trailing whitespace and lower-cases:
it is lower-casing after stripping (as the source computes it), equally
stripping after lower-casing, and on the concrete examples
`normalize("  John  ") = normalize("john") = "john"`. -/
theorem normalize_name_spec :
    (∀ s : PyStr, normalize_name s = lower (strip s)
      ∧ normalize_name s = strip (lower s))
    ∧ normalize_name (str "  John  ") = str "john"
    ∧ normalize_name (str "john") = str "john" := by
  refine ⟨fun s => ⟨rfl, normalize_name_via_lower_strip s⟩, ?_, ?_⟩
  · decide
  · decide

/-- C6: `normalize` is idempotent. -/
theorem normalize_name_idem :
    ∀ s : PyStr, normalize_name (normalize_name s) = normalize_name s := by
  intro s
  rw [normalize_name, normalize_name, strip_lower, strip_idem, lower_idem]

/-- C1: when the normalized name collides with the normalized name of a
record already in the store, `save_interaction` returns `False` and the
store is unchanged. -/
theorem save_interaction_duplicate_rejected (rows : List (PyStr × PyStr))
    (name details : PyStr) (h : normalize_name name ∈ normsOf rows) :
    save_interaction rows name details = (false, rows) := by
  simp [save_interaction, h]

theorem save_interaction_duplicate_rejected_witness :
    normalize_name (str "john") ∈ normsOf [(str "John", str "met for coffee")]
      ∧ save_interaction [(str "John", str "met for coffee")] (str "john")
          (str "anything")
        = (false, [(str "John", str "met for coffee")]) :=
  ⟨by decide, save_interaction_duplicate_rejected _ _ _ (by decide)⟩

theorem normsOf_save (rows : List (PyStr × PyStr)) (name details : PyStr)
    (h : (normsOf rows).Nodup) :
    (normsOf (save_interaction rows name details).2).Nodup := by
  by_cases hmem : normalize_name name ∈ normsOf rows
  · simpa [save_interaction, hmem] using h
  · have happ : normsOf (rows ++ [(name, details)])
        = normsOf rows ++ [normalize_name name] := by
      simp [normsOf]
    simp only [save_interaction, if_neg hmem, happ]
    exact h.append (List.nodup_singleton _) (List.disjoint_singleton.2 hmem)

/-- C2: starting from a store with pairwise distinct normalized names,
any sequence of `save_interaction` calls preserves that invariant. -/
theorem run_saves_preserves_nodup (ops : List (PyStr × PyStr))
    (rows : List (PyStr × PyStr)) (h : (normsOf rows).Nodup) :
    (normsOf (run_saves rows ops)).Nodup := by
  induction ops generalizing rows with
  | nil => exact h
  | cons op rest ih => exact ih _ (normsOf_save rows op.1 op.2 h)

theorem run_saves_preserves_nodup_witness :
    (normsOf ([] : List (PyStr × PyStr))).Nodup
      ∧ (normsOf (run_saves []
          [(str "John", str "a"), (str "john", str "b"),
            (str "Mary", str "c")])).Nodup :=
  ⟨by decide, run_saves_preserves_nodup _ _ (by decide)⟩

/-- C3 fails as stated: with the single record `(" ", "")` the
normalized query `""` is exactly present among the normalized stored
names with details `""`, but because `if exact_match:` tests truthiness
the lookup falls through to fuzzy matching and returns `None` instead of
the exact candidate's record details. -/
theorem load_interaction_exact_cx :
    dictGet (load_interactions [(str " ", str "")]) (normalize_name (str " "))
        = some (str "")
      ∧ load_interaction [(str " ", str "")] (str " ") ≠ some (str "")
      ∧ load_interaction [(str " ", str "")] (str " ") = none := by
  decide

/-- C3 amended: if the normalized query is exactly present among the
normalized stored names and the matched record's details is non-empty,
`load_interaction` returns that record's details, and no fuzzy match
result is returned instead. -/
theorem load_interaction_exact_match (rows : List (PyStr × PyStr))
    (q d : PyStr)
    (h : dictGet (load_interactions rows) (normalize_name q) = some d)
    (hd : d ≠ []) : load_interaction rows q = some d := by
  simp [load_interaction, h, hd]

theorem load_interaction_exact_match_witness :
    dictGet (load_interactions [(str "john", str "a"), (str "johnny", str "b")])
        (normalize_name (str "John")) = some (str "a")
      ∧ load_interaction [(str "john", str "a"), (str "johnny", str "b")]
          (str "John") = some (str "a") :=
  ⟨by decide, load_interaction_exact_match _ _ _ (by decide) (by decide)⟩

theorem bestStep_foldl (q : PyStr) (rest : List PyStr) :
    ∀ b : PyStr × Nat, b.2 = ratio_score q b.1 →
      (rest.foldl (bestStep q) b).2
          = ratio_score q (rest.foldl (bestStep q) b).1
        ∧ (rest.foldl (bestStep q) b = b
            ∨ (rest.foldl (bestStep q) b).1 ∈ rest)
        ∧ b.2 ≤ (rest.foldl (bestStep q) b).2
        ∧ ∀ c ∈ rest, ratio_score q c ≤ (rest.foldl (bestStep q) b).2 := by
  induction rest with
  | nil =>
    intro b hb
    exact ⟨hb, Or.inl rfl, le_refl _, by simp⟩
  | cons c2 rest ih =>
    intro b hb
    simp only [List.foldl_cons]
    by_cases hlt : b.2 < ratio_score q c2
    · rw [show bestStep q b c2 = (c2, ratio_score q c2) from
        by simp [bestStep, hlt]]
      obtain ⟨h1, h2, h3, h4⟩ := ih (c2, ratio_score q c2) rfl
      refine ⟨h1, ?_, ?_, ?_⟩
      · rcases h2 with h2 | h2
        · exact Or.inr (by rw [h2]; exact List.mem_cons_self _ _)
        · exact Or.inr (List.mem_cons_of_mem _ h2)
      · exact le_trans (le_of_lt hlt) h3
      · intro c hc
        rcases List.mem_cons.1 hc with hc | hc
        · exact hc ▸ h3
        · exact h4 c hc
    · rw [show bestStep q b c2 = b from by simp [bestStep, hlt]]
      obtain ⟨h1, h2, h3, h4⟩ := ih b hb
      refine ⟨h1, ?_, h3, ?_⟩
      · rcases h2 with h2 | h2
        · exact Or.inl h2
        · exact Or.inr (List.mem_cons_of_mem _ h2)
      · intro c hc
        rcases List.mem_cons.1 hc with hc | hc
        · exact hc ▸ le_trans (Nat.le_of_not_lt hlt) h3
        · exact h4 c hc

theorem extractOne_best (q : PyStr) (choices : List PyStr) (best : PyStr)
    (score : Nat) (h : extractOne q choices = some (best, score)) :
    best ∈ choices ∧ score = ratio_score q best
      ∧ ∀ c ∈ choices, ratio_score q c ≤ score := by
  match choices with
  | [] => simp [extractOne] at h
  | c :: rest =>
    simp only [extractOne, Option.some.injEq] at h
    obtain ⟨h1, h2, h3, h4⟩ := bestStep_foldl q rest (c, ratio_score q c) rfl
    rw [h] at h1 h2 h3 h4
    refine ⟨?_, h1, ?_⟩
    · rcases h2 with h2 | h2
      · rw [show best = c from congrArg Prod.fst h2]
        exact List.mem_cons_self _ _
      · exact List.mem_cons_of_mem _ h2
    · intro c3 hc3
      rcases List.mem_cons.1 hc3 with hc3 | hc3
      · exact hc3 ▸ h3
      · exact h4 c3 hc3

/-- C4: with no exact normalized match, `load_interaction` on a
non-empty candidate set takes the best-scoring candidate under the
similarity metric and returns its record exactly when the best score is
at least 80, returning `None` otherwise, and returns `None` on an empty
candidate set. -/
theorem load_interaction_fuzzy (rows : List (PyStr × PyStr)) (q : PyStr)
    (h : dictGet (load_interactions rows) (normalize_name q) = none) :
    (load_interactions rows = [] → load_interaction rows q = none)
      ∧ ∀ best score,
          extractOne (normalize_name q)
              ((load_interactions rows).map Prod.fst) = some (best, score) →
          best ∈ (load_interactions rows).map Prod.fst
            ∧ score = ratio_score (normalize_name q) best
            ∧ (∀ c ∈ (load_interactions rows).map Prod.fst,
                ratio_score (normalize_name q) c ≤ score)
            ∧ load_interaction rows q
              = if 80 ≤ score then dictGet (load_interactions rows) best
                else none := by
  constructor
  · intro hnil
    simp [load_interaction, h, fuzzy_branch, hnil, dictGet]
  · intro best score hext
    obtain ⟨hmem, hsc, hmax⟩ := extractOne_best _ _ _ _ hext
    have hne : ¬((load_interactions rows).map Prod.fst = []) := by
      intro h0
      rw [h0] at hext
      simp [extractOne] at hext
    refine ⟨hmem, hsc, hmax, ?_⟩
    simp [load_interaction, h, fuzzy_branch, hne, hext]

theorem load_interaction_fuzzy_witness :
    dictGet (load_interactions [(str "john", str "x")])
        (normalize_name (str "jon")) = none
      ∧ extractOne (normalize_name (str "jon"))
          ((load_interactions [(str "john", str "x")]).map Prod.fst)
        = some (str "john", 85)
      ∧ load_interaction [(str "john", str "x")] (str "jon")
        = some (str "x") := by
  refine ⟨by decide, by decide, ?_⟩
  have h := ((load_interaction_fuzzy [(str "john", str "x")] (str "jon")
    (by decide)).2 (str "john") 85 (by decide)).2.2.2
  exact h.trans (by decide)

/-- C7 fails as stated: with the single record `("abcde", "")` and the
extracted name `"abcd"`, a match exists (`load_interaction` returns the
matched record's details `""`), yet the handler's truthiness test
`if details:` displays the not-found outcome instead of the details. -/
theorem retrieve_tab_match_cx :
    load_interaction [(str "abcde", str "")] (str "abcd") = some (str "")
      ∧ retrieve_tab [(str "abcde", str "")] (some (str "abcd")) none
        = RetrieveOutcome.notFound (str "abcd") := by
  decide

/-- C7 amended: the retrieve handler dispatches on the extraction
result: a name leads to a store lookup whose details is displayed when a
match with non-empty details exists and the not-found outcome otherwise
(a match whose details is the empty string is also displayed as not
found); a message alone yields the info outcome; neither yields the
unresolved outcome; a name takes precedence over a simultaneous
message. -/
theorem retrieve_tab_dispatch (rows : List (PyStr × PyStr)) (n m : PyStr)
    (msg? : Option PyStr) :
    (∀ d, load_interaction rows n = some d → d ≠ [] →
        retrieve_tab rows (some n) msg? = .found n d)
      ∧ (load_interaction rows n = none →
          retrieve_tab rows (some n) msg? = .notFound n)
      ∧ (load_interaction rows n = some [] →
          retrieve_tab rows (some n) msg? = .notFound n)
      ∧ retrieve_tab rows none (some m) = .info m
      ∧ retrieve_tab rows none none = .unresolved := by
  refine ⟨?_, ?_, ?_, rfl, rfl⟩
  · intro d hd hne
    simp [retrieve_tab, hd, hne]
  · intro hd
    simp [retrieve_tab, hd]
  · intro hd
    simp [retrieve_tab, hd]

theorem retrieve_tab_dispatch_witness :
    retrieve_tab [(str "john", str "x")] (some (str "John")) (some (str "hi"))
        = RetrieveOutcome.found (str "John") (str "x")
      ∧ retrieve_tab [(str "john", str "x")] none (some (str "hi"))
        = RetrieveOutcome.info (str "hi")
      ∧ retrieve_tab [(str "john", str "x")] none none
        = RetrieveOutcome.unresolved
      ∧ retrieve_tab [] (some (str "bob")) none
        = RetrieveOutcome.notFound (str "bob") :=
  ⟨(retrieve_tab_dispatch [(str "john", str "x")] (str "John") (str "hi")
      (some (str "hi"))).1 (str "x") (by decide) (by decide),
    (retrieve_tab_dispatch [(str "john", str "x")] (str "John") (str "hi")
      (some (str "hi"))).2.2.2.1,
    (retrieve_tab_dispatch [(str "john", str "x")] (str "John") (str "hi")
      (some (str "hi"))).2.2.2.2,
    (retrieve_tab_dispatch [] (str "bob") (str "hi") none).2.1 (by decide)⟩

/-- C8: every failure of the external language-model call (a raised
exception, an empty stripped response body, a body `json.loads` cannot
parse, or a parsed value that is not a dict containing a `name` field)
makes `parse_query_with_groq` return the dict with `name` and `message`
both `None`, so retrieval degrades to the unresolved outcome. -/
theorem parse_query_with_groq_failures (jsonLoads : PyStr → Option Json)
    (c : PyStr) :
    parse_query_with_groq jsonLoads .raises = emptyResult
      ∧ (strip c = [] →
          parse_query_with_groq jsonLoads (.returns c) = emptyResult)
      ∧ (jsonLoads (strip c) = none →
          parse_query_with_groq jsonLoads (.returns c) = emptyResult)
      ∧ ∀ v, jsonLoads (strip c) = some v → hasNameField v = false →
          parse_query_with_groq jsonLoads (.returns c) = emptyResult := by
  refine ⟨rfl, ?_, ?_, ?_⟩
  · intro h
    simp [parse_query_with_groq, h]
  · intro h
    by_cases h0 : strip c = [] <;> simp [parse_query_with_groq, h0, h]
  · intro v hv hn
    by_cases h0 : strip c = [] <;> simp [parse_query_with_groq, h0, hv, hn]

theorem parse_query_with_groq_failures_witness :
    parse_query_with_groq (fun _ => none) (.returns (str "x")) = emptyResult
      ∧ parse_query_with_groq (fun _ => some .other) (.returns (str "x"))
        = emptyResult :=
  ⟨(parse_query_with_groq_failures (fun _ => none) (str "x")).2.2.1 rfl,
    (parse_query_with_groq_failures (fun _ => some .other) (str "x")).2.2.2
      .other rfl rfl⟩

/-- C9 fails as stated: the whitespace-only name `" "` is blank but
passes the handler's `if not person_name` check, so the store is
accessed and the row is inserted instead of being rejected with a
validation error. -/
theorem log_tab_blank_cx :
    log_tab [] (str " ") (str "x") = (.success, [(str " ", str "x")], true)
      ∧ (log_tab [] (str " ") (str "x")).1 ≠ LogResult.validationError := by
  decide

/-- C9 amended: the log handler rejects with a validation error, before
any store access and with the store unchanged, exactly when the name or
the details is the empty string; whitespace-only inputs pass the check
and reach the store. -/
theorem log_tab_validation (rows : List (PyStr × PyStr))
    (name details : PyStr) :
    ((log_tab rows name details).1 = .validationError
        ↔ name = [] ∨ details = [])
      ∧ (name = [] ∨ details = [] →
          log_tab rows name details = (.validationError, rows, false)) := by
  by_cases h : name = [] ∨ details = []
  · simp [log_tab, h]
  · refine ⟨?_, fun hor => absurd hor h⟩
    simp only [log_tab, if_neg h]
    constructor
    · intro hres
      by_cases hsave : (save_interaction rows name details).1 <;>
        simp [hsave] at hres
    · intro hor
      exact absurd hor h

theorem log_tab_validation_witness :
    log_tab [] [] (str "x") = (.validationError, [], false) :=
  (log_tab_validation [] [] (str "x")).2 (Or.inl rfl)

/-- C10: an exact hit on a record whose details is the empty string is
not returned by the exact-match step: the truthiness test sends the
lookup to the fuzzy branch over all candidates, and in particular on the
store `[(" ", "")]` with query `""` the lookup returns `None` even
though the record's normalized name matches exactly. -/
theorem load_interaction_empty_details :
    (∀ rows name,
        dictGet (load_interactions rows) (normalize_name name) = some [] →
        load_interaction rows name
          = fuzzy_branch (load_interactions rows) (normalize_name name))
      ∧ dictGet (load_interactions [(str " ", str "")])
          (normalize_name (str "")) = some []
      ∧ load_interaction [(str " ", str "")] (str "") = none := by
  refine ⟨?_, by decide, by decide⟩
  intro rows name h
  simp [load_interaction, h]

theorem load_interaction_empty_details_witness :
    dictGet (load_interactions [(str "a", str "")]) (normalize_name (str "a"))
        = some []
      ∧ load_interaction [(str "a", str "")] (str "a")
        = fuzzy_branch (load_interactions [(str "a", str "")])
            (normalize_name (str "a")) :=
  ⟨by decide, load_interaction_empty_details.1 _ _ (by decide)⟩

end MeetApp
